import Mathlib

/-!
Verification of the obsidian-smart-workflow repository.

The core of the repository is a PTY broker (rust-servers/pty-server); its
Rust sources are not shipped in this tree (only the README and a JS test
harness are), so the broker's data model and operations are modelled from
the specification and the README.  The TypeScript collaborators
(terminalView.ts, languageDetector.ts, autoArchiveService.ts) are embedded
directly from their sources.
-/

namespace PtyBroker

/-- Modelled from the spec: the single startup line the broker prints on
standard output (the Rust entry point main.rs is missing from the tree).
The line carries the actually-bound listening port and the broker's own
process id. -/
structure PortLine where
  port : Nat
  pid : Nat
deriving DecidableEq, Repr

/-- Modelled from the spec: observable events of one broker run
(missing source: main.rs / server.rs).  Standard-output lines, standard-error
messages, accepted transport connections and process exit. -/
inductive BrokerEvent where
  | stdoutPortLine (line : PortLine)
  | stderrMsg (msg : String)
  | acceptConn (connId : Nat)
  | exitWith (code : Nat)
deriving DecidableEq, Repr

/-- Modelled from the spec: the broker's startup behaviour (missing source:
main.rs / server.rs).  `bind` models the OS bind call: given the requested
port (0 = ephemeral) it yields the actually bound port, or `none` on bind
failure.  On success the broker emits the port line once and then accepts
connections indefinitely (`conns` is the stream of arriving connections);
on bind failure it reports on standard error and exits nonzero before ever
printing a port or accepting a connection. -/
def brokerRun (requestedPort pid : Nat) (bind : Nat → Option Nat)
    (conns : List Nat) : List BrokerEvent :=
  match bind requestedPort with
  | none => [.stderrMsg "failed to bind listening port", .exitWith 1]
  | some p => .stdoutPortLine ⟨p, pid⟩ :: conns.map .acceptConn

/-- The stdout port lines occurring in a broker event trace. -/
def stdoutLines (evs : List BrokerEvent) : List PortLine :=
  evs.filterMap fun e =>
    match e with
    | .stdoutPortLine l => some l
    | _ => none

/-- The connections accepted in a broker event trace; each accepted
connection is what creates a session, so an empty list means no session was
ever created in the run. -/
def acceptedConns (evs : List BrokerEvent) : List Nat :=
  evs.filterMap fun e =>
    match e with
    | .acceptConn c => some c
    | _ => none

end PtyBroker

namespace PtyBroker

/-- C1: on successful startup the broker emits exactly one stdout line,
carrying the actually bound port and the broker's pid; the line is the very
first event of the run, hence precedes every accepted connection; and for
every requested port (including 0) the printed port is the actual listening
port, which is nonzero by the OS bind model. -/
theorem startup_port_line (requestedPort pid p : Nat) (bind : Nat → Option Nat)
    (conns : List Nat)
    (hbind : bind requestedPort = some p)
    (hos : ∀ q, bind requestedPort = some q → 0 < q) :
    stdoutLines (brokerRun requestedPort pid bind conns) = [⟨p, pid⟩] ∧
    (brokerRun requestedPort pid bind conns).head? =
      some (.stdoutPortLine ⟨p, pid⟩) ∧
    0 < p := by
  refine ⟨?_, ?_, hos p hbind⟩
  · simp only [brokerRun, hbind, stdoutLines, List.filterMap_cons]
    simp [List.filterMap_map, List.filterMap_eq_nil_iff]
  · simp [brokerRun, hbind]

theorem startup_port_line_witness :
    (fun _ => some 4321 : Nat → Option Nat) 0 = some 4321 ∧
    stdoutLines (brokerRun 0 77 (fun _ => some 4321) [10, 11]) = [⟨4321, 77⟩] := by
  refine ⟨rfl, ?_⟩
  have h := startup_port_line 0 77 4321 (fun _ => some 4321) [10, 11] rfl
    (by intro q hq; cases hq; decide)
  exact h.1

/-- C6: if binding the listening port fails, the broker reports on standard
error and exits with a nonzero status, prints no port line on standard
output, and accepts no connection (hence never creates a session). -/
theorem bind_failure_fatal (requestedPort pid : Nat) (bind : Nat → Option Nat)
    (conns : List Nat) (hbind : bind requestedPort = none) :
    (∃ m, .stderrMsg m ∈ brokerRun requestedPort pid bind conns) ∧
    (∃ c, .exitWith c ∈ brokerRun requestedPort pid bind conns ∧ c ≠ 0) ∧
    stdoutLines (brokerRun requestedPort pid bind conns) = [] ∧
    acceptedConns (brokerRun requestedPort pid bind conns) = [] := by
  refine ⟨⟨"failed to bind listening port", ?_⟩, ⟨1, ?_, by decide⟩, ?_, ?_⟩ <;>
    simp [brokerRun, hbind, stdoutLines, acceptedConns]

theorem bind_failure_fatal_witness :
    (fun _ => none : Nat → Option Nat) 8080 = none ∧
    stdoutLines (brokerRun 8080 5 (fun _ => none) []) = [] := by
  refine ⟨rfl, ?_⟩
  exact (bind_failure_fatal 8080 5 (fun _ => none) [] rfl).2.2.1

/-- Modelled from the spec: the lifecycle states of a Session
(missing source: pty_session.rs). -/
inductive SessionState where
  | initializing
  | active
  | closing
  | terminated
deriving DecidableEq, Repr

/-- Modelled from the spec: one Session of the broker (missing source:
pty_session.rs): owning connection handle, current PTY dimensions and
lifecycle state. -/
structure Session where
  connId : Nat
  cols : Nat
  rows : Nat
  state : SessionState
deriving DecidableEq, Repr

/-- Modelled from the spec: the Session Registry (missing source:
server.rs).  `sessions` is the single map from session identifier to its
Session; `terminatedIds` records every identifier whose Session has entered
the Terminated state. -/
structure Registry where
  sessions : List (Nat × Session)
  terminatedIds : List Nat
deriving DecidableEq, Repr

/-- Lookup in the registry map. -/
def lookupSession : List (Nat × Session) → Nat → Option Session
  | [], _ => none
  | kv :: rest, sid => if kv.1 = sid then some kv.2 else lookupSession rest sid

/-- Removal from the registry map. -/
def removeSession : List (Nat × Session) → Nat → List (Nat × Session)
  | [], _ => []
  | kv :: rest, sid =>
    if kv.1 = sid then removeSession rest sid else kv :: removeSession rest sid

/-- In-place update of one entry of the registry map. -/
def updateSession (l : List (Nat × Session)) (sid : Nat) (g : Session → Session) :
    List (Nat × Session) :=
  l.map fun kv => if kv.1 = sid then (kv.1, g kv.2) else kv

/-- Modelled from the spec: the three teardown triggers of a Session
(missing source: pty_session.rs). -/
inductive TeardownTrigger where
  | processExit
  | connClose
  | explicitDestroy
deriving DecidableEq, Repr

/-- Modelled from the spec: applying one teardown trigger to a Session
(missing source: pty_session.rs / server.rs).  If the Session is still held
by the Registry, it transitions to Terminated and is removed from the map in
the same step (cleanup is synchronous, not deferred); if it is not held any
more, the event is a no-op. -/
def applyTeardown (r : Registry) (sid : Nat) (_t : TeardownTrigger) : Registry :=
  match lookupSession r.sessions sid with
  | some _ =>
    { sessions := removeSession r.sessions sid,
      terminatedIds := sid :: r.terminatedIds }
  | none => r

/-- A whole sequence of teardown events aimed at one Session. -/
def teardownRun (r : Registry) (sid : Nat) (ts : List TeardownTrigger) : Registry :=
  ts.foldl (fun acc t => applyTeardown acc sid t) r

/-- Modelled from the spec: result of a registry operation (missing source:
server.rs).  Unknown or already-terminated identifiers yield `notFound`,
never a process-level error. -/
inductive RegResult where
  | ok
  | notFound
deriving DecidableEq, Repr

/-- Update of the PTY dimensions of a Session. -/
def setDims (s : Session) (c w : Nat) : Session := { s with cols := c, rows := w }

/-- Modelled from the spec: resize through the Registry (missing source:
server.rs / pty_session.rs).  Unknown identifier: `notFound`, map untouched.
Known Session: the PTY dimensions are updated when the Session is Active;
in any other state the request is ignored, not queued and not an error. -/
def registryResize (r : Registry) (sid c w : Nat) : Registry × RegResult :=
  match lookupSession r.sessions sid with
  | none => (r, .notFound)
  | some s =>
    if s.state = .active then
      ({ r with sessions := updateSession r.sessions sid (fun s0 => setDims s0 c w) },
       .ok)
    else (r, .ok)

/-- Modelled from the spec: explicit destroy through the Registry (missing
source: server.rs).  Unknown identifier: `notFound`, map untouched. -/
def registryDestroy (r : Registry) (sid : Nat) : Registry × RegResult :=
  match lookupSession r.sessions sid with
  | none => (r, .notFound)
  | some _ => (applyTeardown r sid .explicitDestroy, .ok)

/-- Registry invariant: the Registry never holds a Session after it has
entered Terminated. -/
def RegInv (r : Registry) : Prop :=
  ∀ sid ∈ r.terminatedIds, lookupSession r.sessions sid = none

/-- The observable PTY dimensions of a Session held by the Registry. -/
def sessionDims (r : Registry) (sid : Nat) : Option (Nat × Nat) :=
  (lookupSession r.sessions sid).map fun s => (s.cols, s.rows)

theorem lookupSession_remove_self (l : List (Nat × Session)) (sid : Nat) :
    lookupSession (removeSession l sid) sid = none := by
  induction l with
  | nil => rfl
  | cons kv rest ih =>
    by_cases h : kv.1 = sid <;> simp [removeSession, lookupSession, h, ih]

theorem lookupSession_remove_ne (l : List (Nat × Session)) (sid x : Nat)
    (hx : x ≠ sid) :
    lookupSession (removeSession l sid) x = lookupSession l x := by
  induction l with
  | nil => rfl
  | cons kv rest ih =>
    by_cases h : kv.1 = sid
    · have hne : kv.1 ≠ x := fun he => hx (he.symm.trans h)
      simp only [removeSession, if_pos h, lookupSession, if_neg hne]
      exact ih
    · by_cases h2 : kv.1 = x
      · simp only [removeSession, if_neg h, lookupSession, if_pos h2]
      · simp only [removeSession, if_neg h, lookupSession, if_neg h2]
        exact ih

theorem applyTeardown_not_found (r : Registry) (sid : Nat) (t : TeardownTrigger)
    (h : lookupSession r.sessions sid = none) : applyTeardown r sid t = r := by
  simp [applyTeardown, h]

theorem teardownRun_not_found (r : Registry) (sid : Nat) (ts : List TeardownTrigger)
    (h : lookupSession r.sessions sid = none) : teardownRun r sid ts = r := by
  induction ts with
  | nil => rfl
  | cons t ts ih =>
    simp only [teardownRun, List.foldl_cons]
    rw [applyTeardown_not_found r sid t h]
    exact ih

/-- C2: whichever of the three teardown triggers fires first on a Session
still held by the Registry, that single event removes the Session from the
map (removal is synchronous with entering Terminated), records exactly one
entry into Terminated for it, and every later teardown event on the same
Session, in any order, is a no-op; the registry invariant is preserved. -/
theorem teardown_first_event (r : Registry) (sid : Nat) (t : TeardownTrigger)
    (ts : List TeardownTrigger)
    (hin : (lookupSession r.sessions sid).isSome) (hinv : RegInv r) :
    lookupSession (applyTeardown r sid t).sessions sid = none ∧
    (applyTeardown r sid t).terminatedIds.count sid = 1 ∧
    teardownRun (applyTeardown r sid t) sid ts = applyTeardown r sid t ∧
    RegInv (applyTeardown r sid t) := by
  obtain ⟨s, hs⟩ := Option.isSome_iff_exists.mp hin
  have hnotterm : sid ∉ r.terminatedIds := by
    intro hmem
    rw [hinv sid hmem] at hs
    exact Option.noConfusion hs
  have happ : applyTeardown r sid t =
      { sessions := removeSession r.sessions sid,
        terminatedIds := sid :: r.terminatedIds } := by
    simp [applyTeardown, hs]
  have hgone : lookupSession (applyTeardown r sid t).sessions sid = none := by
    rw [happ]
    exact lookupSession_remove_self r.sessions sid
  refine ⟨hgone, ?_, teardownRun_not_found _ sid ts hgone, ?_⟩
  · rw [happ]
    simp [List.count_cons_self, List.count_eq_zero.mpr hnotterm]
  · intro x hx
    rw [happ] at hx ⊢
    rcases List.mem_cons.mp hx with hx | hx
    · rw [hx]
      exact lookupSession_remove_self r.sessions sid
    · by_cases hxe : x = sid
      · rw [hxe]
        exact lookupSession_remove_self r.sessions sid
      · rw [lookupSession_remove_ne r.sessions sid x hxe]
        exact hinv x hx

theorem teardown_first_event_witness :
    (lookupSession [(1, ⟨9, 80, 24, .active⟩)] 1).isSome ∧
    lookupSession
      (applyTeardown ⟨[(1, ⟨9, 80, 24, .active⟩)], []⟩ 1 .processExit).sessions 1 =
      none := by
  refine ⟨by decide, ?_⟩
  exact (teardown_first_event ⟨[(1, ⟨9, 80, 24, .active⟩)], []⟩ 1 .processExit
    [.connClose, .explicitDestroy] (by decide)
    (by intro x hx; exact absurd hx (List.not_mem_nil x))).1

theorem map_self_idem {α : Type} (f : α → α) (hf : ∀ a, f (f a) = f a)
    (l : List α) : (l.map f).map f = l.map f := by
  induction l with
  | nil => rfl
  | cons a l ih => simp [hf, ih]

theorem updateSession_idem (l : List (Nat × Session)) (sid : Nat)
    (g : Session → Session) (hg : ∀ s, g (g s) = g s) :
    updateSession (updateSession l sid g) sid g = updateSession l sid g := by
  apply map_self_idem
  intro kv
  by_cases h : kv.1 = sid <;> simp [h, hg]

theorem lookupSession_update_self (l : List (Nat × Session)) (sid : Nat)
    (g : Session → Session) :
    lookupSession (updateSession l sid g) sid = (lookupSession l sid).map g := by
  induction l with
  | nil => rfl
  | cons kv rest ih =>
    by_cases h : kv.1 = sid <;>
      simp only [updateSession, List.map_cons] at ih ⊢ <;>
      simp [lookupSession, h, ih, updateSession]

/-- C3: resize is idempotent on an Active Session: applying the same
Resize frame a second time reports no error, leaves the Registry (and hence
the PTY state) exactly as after the first application, and the observable
PTY dimensions equal the requested pair. -/
theorem resize_idempotent (r : Registry) (sid c w : Nat) (s : Session)
    (hs : lookupSession r.sessions sid = some s) (hact : s.state = .active) :
    (registryResize (registryResize r sid c w).1 sid c w).2 = .ok ∧
    (registryResize (registryResize r sid c w).1 sid c w).1 =
      (registryResize r sid c w).1 ∧
    sessionDims (registryResize r sid c w).1 sid = some (c, w) := by
  have hr1 : registryResize r sid c w =
      ({ r with sessions := updateSession r.sessions sid (fun s0 => setDims s0 c w) },
       .ok) := by
    simp [registryResize, hs, hact]
  have hlook1 : lookupSession (registryResize r sid c w).1.sessions sid =
      some (setDims s c w) := by
    rw [hr1]
    simp [lookupSession_update_self, hs]
  have hstate : (setDims s c w).state = SessionState.active := by
    simp [setDims, hact]
  have hidem : updateSession
      (updateSession r.sessions sid (fun s0 => setDims s0 c w)) sid
      (fun s0 => setDims s0 c w) =
      updateSession r.sessions sid (fun s0 => setDims s0 c w) :=
    updateSession_idem _ sid _ (fun _ => rfl)
  have hr2 : registryResize (registryResize r sid c w).1 sid c w =
      ((registryResize r sid c w).1, .ok) := by
    rw [registryResize]
    rw [hlook1]
    simp only [hstate, if_pos rfl]
    rw [hr1]
    simp [hidem]
  refine ⟨by rw [hr2], by rw [hr2], ?_⟩
  rw [sessionDims, hlook1]
  simp [setDims]

theorem resize_idempotent_witness :
    lookupSession [(2, ⟨5, 80, 24, .active⟩)] 2 = some ⟨5, 80, 24, .active⟩ ∧
    sessionDims (registryResize ⟨[(2, ⟨5, 80, 24, .active⟩)], []⟩ 2 100 40).1 2 =
      some (100, 40) := by
  refine ⟨by decide, ?_⟩
  exact (resize_idempotent ⟨[(2, ⟨5, 80, 24, .active⟩)], []⟩ 2 100 40
    ⟨5, 80, 24, .active⟩ (by decide) (by decide)).2.2

/-- C7: resize and destroy on a session identifier that is unknown to the
Registry, or whose Session has already terminated (so that, by the registry
invariant, the map no longer holds it), return `notFound` and leave the
Registry unchanged; neither escalates to a process-level error. -/
theorem unknown_id_not_found (r : Registry) (sid c w : Nat)
    (h : lookupSession r.sessions sid = none ∨ (RegInv r ∧ sid ∈ r.terminatedIds)) :
    registryResize r sid c w = (r, .notFound) ∧
    registryDestroy r sid = (r, .notFound) := by
  have hn : lookupSession r.sessions sid = none := by
    rcases h with h | ⟨hinv, hmem⟩
    · exact h
    · exact hinv sid hmem
  constructor <;> simp [registryResize, registryDestroy, hn]

theorem unknown_id_not_found_witness :
    (lookupSession ([] : List (Nat × Session)) 3 = none ∨
      (RegInv ⟨[], [3]⟩ ∧ 3 ∈ ([3] : List Nat))) ∧
    registryResize ⟨[], [3]⟩ 3 100 40 = (⟨[], [3]⟩, .notFound) ∧
    registryDestroy ⟨[], [3]⟩ 3 = (⟨[], [3]⟩, .notFound) :=
  ⟨Or.inl rfl, unknown_id_not_found ⟨[], [3]⟩ 3 100 40 (Or.inl rfl)⟩

/-- Modelled from the spec: a shell candidate, an executable together with
its default arguments (missing source: shell.rs). -/
structure ShellCandidate where
  exe : String
  args : List String
deriving DecidableEq, Repr

/-- Modelled from the spec: the two OS families the resolver distinguishes
(missing source: shell.rs). -/
inductive HostOS where
  | windows
  | unixLike
deriving DecidableEq, Repr

/-- Modelled from the spec: the ordered Windows shell ladder (missing
source: shell.rs): modern PowerShell, then legacy PowerShell, then the
command interpreter. -/
def windowsLadder : List ShellCandidate :=
  [⟨"pwsh.exe", []⟩, ⟨"powershell.exe", []⟩, ⟨"cmd.exe", []⟩]

/-- Modelled from the spec: the ordered Unix-like shell ladder (missing
source: shell.rs): the SHELL environment default, then bash, then zsh, then
POSIX sh. -/
def unixLadder (shellEnv : Option String) : List ShellCandidate :=
  (match shellEnv with
   | some sh => [⟨sh, []⟩]
   | none => []) ++
  [⟨"/bin/bash", []⟩, ⟨"/bin/zsh", []⟩, ⟨"/bin/sh", []⟩]

/-- Modelled from the spec: the platform-specific ordered candidate list
(missing source: shell.rs). -/
def platformLadder (os : HostOS) (shellEnv : Option String) : List ShellCandidate :=
  match os with
  | .windows => windowsLadder
  | .unixLike => unixLadder shellEnv

/-- Modelled from the spec: shell resolution (missing source: shell.rs).
`onDisk` models existence of an executable on the host; `mapShell` maps an
explicitly named shell type to its executable and default arguments.  An
explicit choice is used only when its executable is present on the host,
otherwise resolution falls through to the platform ladder and picks the
first candidate that exists; if no candidate exists, resolution fails. -/
def resolveShell (onDisk : String → Bool) (mapShell : String → Option ShellCandidate)
    (os : HostOS) (shellEnv : Option String) (explicitChoice : Option String) :
    Option ShellCandidate :=
  let fromLadder := (platformLadder os shellEnv).find? fun c => onDisk c.exe
  match explicitChoice.bind mapShell with
  | some c => if onDisk c.exe then some c else fromLadder
  | none => fromLadder

/-- C4: shell resolution follows the ordered platform ladder (Windows:
pwsh, powershell, cmd; Unix-like: the SHELL default, bash, zsh, sh) and
returns its first candidate existing on disk; an explicitly named shell is
used only when present on the host and otherwise falls through to the
ladder; and when nothing on the ladder exists (and no usable explicit
choice is given) resolution fails, so the Session cannot start. -/
theorem resolve_shell_ladder (onDisk : String → Bool)
    (mapShell : String → Option ShellCandidate) (os : HostOS)
    (shellEnv : Option String) :
    (windowsLadder.map ShellCandidate.exe =
      ["pwsh.exe", "powershell.exe", "cmd.exe"]) ∧
    (∀ sh, (platformLadder .unixLike (some sh)).map ShellCandidate.exe =
      [sh, "/bin/bash", "/bin/zsh", "/bin/sh"]) ∧
    (resolveShell onDisk mapShell os shellEnv none =
      (platformLadder os shellEnv).find? fun c => onDisk c.exe) ∧
    (∀ name c, mapShell name = some c → onDisk c.exe = true →
      resolveShell onDisk mapShell os shellEnv (some name) = some c) ∧
    (∀ name c, mapShell name = some c → onDisk c.exe = false →
      resolveShell onDisk mapShell os shellEnv (some name) =
        (platformLadder os shellEnv).find? fun c => onDisk c.exe) ∧
    ((∀ c ∈ platformLadder os shellEnv, onDisk c.exe = false) →
      resolveShell onDisk mapShell os shellEnv none = none) := by
  refine ⟨by rfl, fun sh => by rfl, by simp [resolveShell], ?_, ?_, ?_⟩
  · intro name c hmap hdisk
    simp [resolveShell, hmap, hdisk]
  · intro name c hmap hdisk
    simp [resolveShell, hmap, hdisk]
  · intro hall
    simp only [resolveShell, Option.bind, List.find?_eq_none]
    intro c hc
    simp [hall c hc]

theorem resolve_shell_ladder_witness :
    (fun s => s = "/bin/bash" : String → Bool) "/bin/bash" = true ∧
    resolveShell (fun s => s = "/bin/bash") (fun _ => none) .unixLike
      (some "/usr/bin/fish") none = some ⟨"/bin/bash", []⟩ := by
  constructor
  · decide
  · have h := (resolve_shell_ladder (fun s => s = "/bin/bash") (fun _ => none)
      .unixLike (some "/usr/bin/fish")).2.2.1
    rw [h]
    rfl

/-- Structured JSON values; the codec classifies inbound text messages by
inspecting the result of JSON-parsing them. -/
inductive Json where
  | jnull
  | jbool (b : Bool)
  | jnum (n : Int)
  | jstr (s : String)
  | jarr (items : List Json)
  | jobj (fields : List (String × Json))
deriving Repr

/-- Field lookup in a parsed JSON object. -/
def getField (fields : List (String × Json)) (k : String) : Option Json :=
  match fields with
  | [] => none
  | kv :: rest => if kv.1 = k then some kv.2 else getField rest k

/-- A JSON value read as a string. -/
def asStr : Json → Option String
  | .jstr s => some s
  | _ => none

/-- A JSON value read as an unsigned 16-bit number. -/
def asU16 : Json → Option Nat
  | .jnum n => if 0 ≤ n ∧ n < 65536 then some n.toNat else none
  | _ => none

/-- A JSON value read as an array of strings. -/
def asStrList : Json → Option (List String)
  | .jarr items => items.mapM asStr
  | _ => none

/-- A JSON value read as a string-to-string object. -/
def asStrMap : Json → Option (List (String × String))
  | .jobj fields => fields.mapM fun kv => (asStr kv.2).map fun v => (kv.1, v)
  | _ => none

/-- An optional, typed field of a control frame: absent is fine
(`some none`); present with the wrong type is a parse failure (`none`). -/
def optField {α : Type} (fields : List (String × Json)) (k : String)
    (conv : Json → Option α) : Option (Option α) :=
  match getField fields k with
  | none => some none
  | some j => (conv j).map some

/-- Modelled from the spec: the recognized control frames (missing source:
pty_session.rs / server.rs): Init with optional shell type, shell
arguments, working directory and environment overlay, and Resize with
column and row counts. -/
inductive ControlFrame where
  | init (shellType : Option String) (shellArgs : Option (List String))
      (cwd : Option String) (env : Option (List (String × String)))
  | resize (cols rows : Nat)
deriving Repr

/-- Modelled from the spec: the control-frame parser (missing source:
server.rs).  A JSON object whose type field is the string init or resize
and whose fields are well-typed parses to a frame; everything else fails to
parse. -/
def parseControlFrame (j : Json) : Option ControlFrame :=
  match j with
  | .jobj fields =>
    match getField fields "type" with
    | some (.jstr t) =>
      if t = "init" then
        match optField fields "shell_type" asStr,
              optField fields "shell_args" asStrList,
              optField fields "cwd" asStr,
              optField fields "env" asStrMap with
        | some st, some sa, some c, some e => some (.init st sa c e)
        | _, _, _, _ => none
      else if t = "resize" then
        match getField fields "cols", getField fields "rows" with
        | some cj, some rj =>
          match asU16 cj, asU16 rj with
          | some c, some w => some (.resize c w)
          | _, _ => none
        | _, _ => none
      else none
    | _ => none
  | _ => none

/-- An inbound transport message: a text message together with the result
of JSON-parsing it (`none` when the text is not valid JSON), or a binary
message. -/
inductive InboundMsg where
  | text (raw : String) (parsed : Option Json)
  | binary (bytes : List Nat)

/-- What the input pump does with one inbound message: write it to the PTY
input verbatim, apply a control frame, or reject it as a protocol error
(which the broker never does). -/
inductive PumpAction where
  | writePtyText (raw : String)
  | writePtyBytes (bytes : List Nat)
  | applyControl (f : ControlFrame)
  | protocolReject (msg : String)

/-- Modelled from the spec: the input pump's routing of one inbound
message (missing source: pty_session.rs): a text message that parses as a
recognized control frame is applied as control, any other message is
written verbatim to the PTY input. -/
def routeInbound : InboundMsg → PumpAction
  | .binary bs => .writePtyBytes bs
  | .text raw parsed =>
    match parsed.bind parseControlFrame with
    | some f => .applyControl f
    | none => .writePtyText raw

/-- C5: an inbound message is written verbatim to the PTY input exactly
when it does not parse as a recognized control frame; a binary message is
always raw input; no message is ever rejected as a protocol error; and, as
a concrete instance, a control-frame-like resize message with a wrongly
typed cols field is forwarded as raw input. -/
theorem route_raw_iff_not_control (raw : String) (parsed : Option Json)
    (bs : List Nat) :
    (routeInbound (.text raw parsed) = .writePtyText raw ↔
      parsed.bind parseControlFrame = none) ∧
    (∀ e, routeInbound (.text raw parsed) ≠ .protocolReject e) ∧
    (∀ e, routeInbound (.binary bs) ≠ .protocolReject e) ∧
    routeInbound (.binary bs) = .writePtyBytes bs ∧
    routeInbound (.text raw (some (.jobj
      [("type", .jstr "resize"), ("cols", .jstr "80"), ("rows", .jnum 24)]))) =
      .writePtyText raw := by
  have hmal : (some (Json.jobj
      [("type", .jstr "resize"), ("cols", .jstr "80"), ("rows", .jnum 24)])).bind
      parseControlFrame = none := by rfl
  refine ⟨?_, ?_, ?_, rfl, ?_⟩
  · cases hp : parsed.bind parseControlFrame <;>
      simp [routeInbound, hp]
  · intro e
    cases hp : parsed.bind parseControlFrame <;>
      simp [routeInbound, hp]
  · intro e
    simp [routeInbound]
  · simp [routeInbound, hmal]

theorem route_raw_iff_not_control_witness :
    routeInbound (.text "echo hello" none) = .writePtyText "echo hello" :=
  (route_raw_iff_not_control "echo hello" none []).1.mpr rfl

end PtyBroker

namespace TerminalClient

/-- The mutable fields of TerminalView (src/ui/terminal/terminalView.ts)
that onClose touches: whether a ResizeObserver is installed and observing,
the terminal instance reference (an instance id, or null), and how many
child elements the view container currently holds. -/
structure TerminalViewSt where
  resizeObserverConnected : Bool
  terminalInstance : Option Nat
  containerChildCount : Nat
deriving DecidableEq, Repr

/-- The externally visible calls TerminalView.onClose performs, in order:
ResizeObserver.disconnect, terminalService.destroyTerminal (which closes
the session's WebSocket connection and frees its resources, per the
service contract), the catch-branch error log, and containerEl.empty. -/
inductive ViewAction where
  | disconnectObserver
  | destroyTerminal (id : Nat)
  | logDestroyError
  | emptyContainer
deriving DecidableEq, Repr

/-- TerminalView.onClose (terminalView.ts lines 82 to 106).  Step 1: if a
ResizeObserver is installed, disconnect it and null the field (a null field
stays null, so the model nulls it unconditionally, which is the same net
effect).  Step 2: if a terminal instance exists, destroy it through the
terminal service inside try/catch/finally: a thrown error is only logged,
and the finally block nulls the instance reference either way.  Step 3:
empty the container element. -/
def onClose (st : TerminalViewSt) (destroyThrows : Bool) :
    TerminalViewSt × List ViewAction :=
  let obsActs :=
    if st.resizeObserverConnected then [ViewAction.disconnectObserver] else []
  let st1 : TerminalViewSt := { st with resizeObserverConnected := false }
  let destActs :=
    match st1.terminalInstance with
    | some i =>
      ViewAction.destroyTerminal i ::
        (if destroyThrows then [ViewAction.logDestroyError] else [])
    | none => []
  let st2 : TerminalViewSt := { st1 with terminalInstance := none }
  ({ st2 with containerChildCount := 0 },
   obsActs ++ destActs ++ [ViewAction.emptyContainer])

/-- C8: whatever state the view is in and even when destroying the
terminal instance throws, onClose leaves the ResizeObserver disconnected
and nulled, the instance reference nulled, and the container empty; it
disconnects the observer whenever one was installed, calls
terminalService.destroyTerminal on the instance whenever one existed, and
always empties the container. -/
theorem onclose_teardown (st : TerminalViewSt) (destroyThrows : Bool) :
    (onClose st destroyThrows).1.resizeObserverConnected = false ∧
    (onClose st destroyThrows).1.terminalInstance = none ∧
    (onClose st destroyThrows).1.containerChildCount = 0 ∧
    (st.resizeObserverConnected = true →
      ViewAction.disconnectObserver ∈ (onClose st destroyThrows).2) ∧
    (∀ i, st.terminalInstance = some i →
      ViewAction.destroyTerminal i ∈ (onClose st destroyThrows).2) ∧
    ViewAction.emptyContainer ∈ (onClose st destroyThrows).2 := by
  refine ⟨rfl, rfl, rfl, ?_, ?_, ?_⟩
  · intro h
    simp [onClose, h]
  · intro i hi
    simp [onClose, hi]
  · simp [onClose]

theorem onclose_teardown_witness :
    (true = true ∧ (some 7 : Option Nat) = some 7) ∧
    (onClose ⟨true, some 7, 2⟩ true).1.terminalInstance = none ∧
    ViewAction.destroyTerminal 7 ∈ (onClose ⟨true, some 7, 2⟩ true).2 := by
  refine ⟨⟨rfl, rfl⟩, ?_, ?_⟩
  · exact (onclose_teardown ⟨true, some 7, 2⟩ true).2.1
  · exact (onclose_teardown ⟨true, some 7, 2⟩ true).2.2.2.2.1 7 rfl

end TerminalClient

namespace Translation

/-- The result type of language detection
(src/services/translation/languageDetector.ts): detected language code,
estimated confidence and the method that produced it. -/
structure DetectionResult where
  language : String
  confidence : ℚ
  method : String
deriving DecidableEq, Repr

/-- The English default the detector returns for empty input and for every
franc failure. -/
def defaultEnglishResult : DetectionResult :=
  { language := "en", confidence := 0, method := "franc" }

/-- LanguageDetector.mapFrancCode: map the ISO 639-3 code franc returned
through FRANC_LANGUAGE_MAP (here the abstract `francMap`); unmapped codes
that are themselves supported language codes pass through, everything else
defaults to English.  The concrete map and supported set live in
src/settings/types.ts, which is not part of this tree, so both are
parameters. -/
def mapFrancCode (francMap : String → Option String) (supported : String → Bool)
    (code : String) : String :=
  match francMap code with
  | some m => m
  | none => if supported code then code else "en"

/-- LanguageDetector.estimateFrancConfidence: base 0.5, plus 0.3 / 0.2 /
0.1 for text length at least 100 / 50 / 20, plus 0.1 when the code is in
FRANC_LANGUAGE_MAP, clamped into the unit interval. -/
def estimateFrancConfidence (francMap : String → Option String) (text : String)
    (francCode : String) : ℚ :=
  let base : ℚ := 1 / 2
  let lenBonus : ℚ :=
    if text.length ≥ 100 then 3 / 10
    else if text.length ≥ 50 then 1 / 5
    else if text.length ≥ 20 then 1 / 10
    else 0
  let mapBonus : ℚ := if (francMap francCode).isSome then 1 / 10 else 0
  min 1 (max 0 (base + lenBonus + mapBonus))

/-- LanguageDetector.detectWithFranc (languageDetector.ts lines 121 to
156).  The external franc library is the parameter `franc`; `none` models
the call throwing, which the catch block turns into the English default
with confidence 0.  A franc answer of und is likewise turned into the
default; any other answer is mapped and scored. -/
def detectWithFranc (franc francMap : String → Option String)
    (supported : String → Bool) (text : String) : DetectionResult :=
  match franc text with
  | none => defaultEnglishResult
  | some code =>
    if code = "und" then defaultEnglishResult
    else
      { language := mapFrancCode francMap supported code,
        confidence := estimateFrancConfidence francMap text code,
        method := "franc" }

/-- Which of the two detection backends a call to detect actually
invoked. -/
structure DetectCalls where
  francCalled : Bool
  llmCalled : Bool
deriving DecidableEq, Repr

/-- The trim applied to the input text, as JS String.prototype.trim does:
strip leading and trailing whitespace.  (Structurally recursive so that it
evaluates on concrete strings.) -/
def trimStr (s : String) : String :=
  ⟨((s.data.dropWhile Char.isWhitespace).reverse.dropWhile
      Char.isWhitespace).reverse⟩

/-- LanguageDetector.detect (languageDetector.ts lines 76 to 114).  Trim
the input; empty input short-circuits to the English default without
calling either backend; otherwise run franc, return its result when its
confidence reaches the threshold, and consult the LLM (`llm`, whose `none`
models a thrown or failed request, caught and replaced by the franc
fallback) only when LLM detection is enabled and configured. -/
def detect (threshold : ℚ) (enableLLM llmConfigSet : Bool)
    (franc francMap : String → Option String) (supported : String → Bool)
    (llm : String → Option DetectionResult) (text : String) :
    DetectionResult × DetectCalls :=
  let trimmed := trimStr text
  if trimmed = "" then (defaultEnglishResult, ⟨false, false⟩)
  else
    let fr := detectWithFranc franc francMap supported trimmed
    if threshold ≤ fr.confidence then (fr, ⟨true, false⟩)
    else if enableLLM && llmConfigSet then
      match llm trimmed with
      | some res => (res, ⟨true, true⟩)
      | none => (fr, ⟨true, true⟩)
    else (fr, ⟨true, false⟩)

/-- C9: detect resolves every input whose trimmed form is empty to the
English default with confidence 0 and method franc, invoking neither franc
nor the LLM; detectWithFranc turns both a franc exception and a franc
answer of und into that same default instead of throwing; and with LLM
detection disabled detect never invokes the LLM, so it is total. -/
theorem detect_total_and_defaults (threshold : ℚ) (enableLLM llmConfigSet : Bool)
    (franc francMap : String → Option String) (supported : String → Bool)
    (llm : String → Option DetectionResult) (text : String) :
    (trimStr text = "" →
      detect threshold enableLLM llmConfigSet franc francMap supported llm text =
        (defaultEnglishResult, ⟨false, false⟩)) ∧
    (franc text = none →
      detectWithFranc franc francMap supported text = defaultEnglishResult) ∧
    (franc text = some "und" →
      detectWithFranc franc francMap supported text = defaultEnglishResult) ∧
    (enableLLM = false →
      (detect threshold enableLLM llmConfigSet franc francMap supported llm
        text).2.llmCalled = false) ∧
    defaultEnglishResult = { language := "en", confidence := 0, method := "franc" } := by
  refine ⟨fun h => by simp [detect, h], fun h => by simp [detectWithFranc, h],
    fun h => by simp [detectWithFranc, h], fun h => ?_, rfl⟩
  subst h
  simp only [detect, Bool.false_and]
  by_cases h1 : trimStr text = ""
  · simp [h1]
  · simp only [if_neg h1]
    by_cases h2 : threshold ≤
        (detectWithFranc franc francMap supported (trimStr text)).confidence
    · simp [h2]
    · simp [h2]

theorem detect_total_and_defaults_witness :
    trimStr "" = "" ∧
    detect (1 / 10) false false (fun _ => none) (fun _ => none) (fun _ => false)
      (fun _ => none) "" = (defaultEnglishResult, ⟨false, false⟩) := by
  have htrim : trimStr "" = "" := by decide
  refine ⟨htrim, ?_⟩
  exact (detect_total_and_defaults (1 / 10) false false (fun _ => none)
    (fun _ => none) (fun _ => false) (fun _ => none) "").1 htrim

end Translation

namespace Automation

/-- State of the debounce machinery of AutoArchiveService
(src/services/automation/autoArchiveService.ts).  `live` holds the
scheduled timers that have neither fired nor been cancelled, as
(timer id, file path) pairs; `timersMap` is the debounceTimers map from
file path to timer id; `running` holds fired callbacks that are still
awaiting executeAutoArchive, whose finally block has not run yet; `nextId`
generates fresh timer ids. -/
structure ArchiveSvc where
  live : List (Nat × String)
  timersMap : List (String × Nat)
  running : List (Nat × String)
  nextId : Nat
deriving DecidableEq, Repr

/-- Map lookup in debounceTimers. -/
def lookupTimer : List (String × Nat) → String → Option Nat
  | [], _ => none
  | kv :: rest, p => if kv.1 = p then some kv.2 else lookupTimer rest p

/-- Map deletion in debounceTimers. -/
def deleteTimer : List (String × Nat) → String → List (String × Nat)
  | [], _ => []
  | kv :: rest, p =>
    if kv.1 = p then deleteTimer rest p else kv :: deleteTimer rest p

/-- Map insertion (set) in debounceTimers. -/
def insertTimer (m : List (String × Nat)) (p : String) (t : Nat) :
    List (String × Nat) :=
  (p, t) :: deleteTimer m p

/-- clearTimeout: cancel the timer with the given id if it is still
scheduled; cancelling a fired or unknown timer is a no-op. -/
def clearTimer (l : List (Nat × String)) (t : Nat) : List (Nat × String) :=
  l.filter fun e => e.1 ≠ t

/-- Removal of a finished callback from the running set. -/
def removeRunning (l : List (Nat × String)) (t : Nat) : List (Nat × String) :=
  l.filter fun e => e.1 ≠ t

/-- The event-loop steps that touch the debounce state.  `process` is one
call to processAutoArchive (lines 104 to 126): clear the mapped timer if
any, schedule a fresh timer, store it in the map.  `fire` is the timer with
the given id and path firing: the timer stops being live and its async
callback starts, suspending at the await of executeAutoArchive.  `finishCb`
is that callback resuming and running its finally block, which deletes the
path's current map entry.  `cleanup` (lines 246 to 253) clears every mapped
timer and empties the map. -/
inductive ArchiveOp where
  | process (path : String)
  | fire (t : Nat) (path : String)
  | finishCb (t : Nat) (path : String)
  | cleanup
deriving DecidableEq, Repr

/-- One step of the debounce state machine, following the source line by
line (processAutoArchive, the setTimeout callback, cleanup). -/
def archiveStep (st : ArchiveSvc) : ArchiveOp → ArchiveSvc
  | .process p =>
    let live1 :=
      match lookupTimer st.timersMap p with
      | some t => clearTimer st.live t
      | none => st.live
    { live := live1 ++ [(st.nextId, p)],
      timersMap := insertTimer st.timersMap p st.nextId,
      running := st.running,
      nextId := st.nextId + 1 }
  | .fire t p =>
    if (t, p) ∈ st.live then
      { st with live := clearTimer st.live t, running := st.running ++ [(t, p)] }
    else st
  | .finishCb t p =>
    if (t, p) ∈ st.running then
      { st with running := removeRunning st.running t,
                timersMap := deleteTimer st.timersMap p }
    else st
  | .cleanup =>
    { st with
      live := st.timersMap.foldl (fun acc kv => clearTimer acc kv.2) st.live,
      timersMap := [] }

/-- The service starts with no timers, an empty map and no pending
callbacks. -/
def archiveInit : ArchiveSvc := ⟨[], [], [], 0⟩

/-- A run of the service from its initial state. -/
def archiveRun (ops : List ArchiveOp) : ArchiveSvc :=
  ops.foldl archiveStep archiveInit

/-- The claimed invariant: never two live timers keyed to the same path. -/
def atMostOneLivePerPath (st : ArchiveSvc) : Prop :=
  ∀ p : String, ((st.live.filter fun e => e.2 = p).length) ≤ 1

/-- C10 counterexample: the claimed invariant fails on a reachable state.
Schedule a timer for a path, let it fire, and call processAutoArchive for
the same path while the fired callback is still awaiting: the callback's
finally block then deletes the newer timer's map entry, stranding that
timer, and one further processAutoArchive schedules a second live timer
for the very same path. -/
theorem autoArchive_two_live_timers :
    ¬ atMostOneLivePerPath (archiveRun
      [.process "a.md", .fire 0 "a.md", .process "a.md",
       .finishCb 0 "a.md", .process "a.md"]) :=
  fun h => absurd (h "a.md") (by decide)

end Automation

namespace Automation

theorem lookupTimer_delete_self (m : List (String × Nat)) (p : String) :
    lookupTimer (deleteTimer m p) p = none := by
  induction m with
  | nil => rfl
  | cons kv rest ih =>
    by_cases h : kv.1 = p <;> simp [deleteTimer, lookupTimer, h, ih]

theorem lookupTimer_delete_ne (m : List (String × Nat)) (p q : String)
    (hq : q ≠ p) :
    lookupTimer (deleteTimer m p) q = lookupTimer m q := by
  induction m with
  | nil => rfl
  | cons kv rest ih =>
    by_cases h : kv.1 = p
    · have hne : kv.1 ≠ q := fun he => hq (he.symm.trans h)
      simp only [deleteTimer, if_pos h, lookupTimer, if_neg hne]
      exact ih
    · by_cases h2 : kv.1 = q
      · simp only [deleteTimer, if_neg h, lookupTimer, if_pos h2]
      · simp only [deleteTimer, if_neg h, lookupTimer, if_neg h2]
        exact ih

theorem lookupTimer_insert_self (m : List (String × Nat)) (p : String) (t : Nat) :
    lookupTimer (insertTimer m p t) p = some t := by
  simp [insertTimer, lookupTimer]

theorem lookupTimer_insert_ne (m : List (String × Nat)) (p q : String) (t : Nat)
    (hq : q ≠ p) :
    lookupTimer (insertTimer m p t) q = lookupTimer m q := by
  have hne : ¬((p, t).1 = q) := fun he => hq (he.symm)
  simp only [insertTimer, lookupTimer, if_neg hne]
  exact lookupTimer_delete_ne m p q hq

theorem lookupTimer_mem (m : List (String × Nat)) (p : String) (t : Nat)
    (h : lookupTimer m p = some t) : (p, t) ∈ m := by
  induction m with
  | nil => exact absurd h (by simp [lookupTimer])
  | cons kv rest ih =>
    obtain ⟨a, b⟩ := kv
    by_cases h1 : a = p
    · simp only [lookupTimer, h1, if_pos rfl] at h
      injection h with hb
      rw [h1, hb]
      exact List.mem_cons_self _ _
    · simp only [lookupTimer, if_neg h1] at h
      exact List.mem_cons_of_mem _ (ih h)

theorem filter_comm2 {α : Type} (p q : α → Bool) (l : List α) :
    (l.filter p).filter q = (l.filter q).filter p := by
  induction l with
  | nil => rfl
  | cons a l ih =>
    by_cases hp : p a = true <;> by_cases hq : q a = true <;>
      simp [List.filter_cons, hp, hq, ih]

theorem filter_clearTimer (l : List (Nat × String)) (t : Nat) (p : String) :
    ((clearTimer l t).filter fun e => e.2 = p) =
      clearTimer (l.filter fun e => e.2 = p) t :=
  filter_comm2 _ _ l

theorem mem_foldl_clearTimer (m : List (String × Nat)) (l : List (Nat × String))
    (e : Nat × String)
    (h : e ∈ m.foldl (fun acc kv => clearTimer acc kv.2) l) :
    e ∈ l ∧ ∀ kv ∈ m, kv.2 ≠ e.1 := by
  induction m generalizing l with
  | nil =>
    refine ⟨h, ?_⟩
    intro kv hkv
    cases hkv
  | cons kv0 rest ih =>
    simp only [List.foldl_cons] at h
    obtain ⟨h1, h2⟩ := ih (clearTimer l kv0.2) h
    have h3 := List.mem_filter.mp h1
    refine ⟨h3.1, ?_⟩
    intro kv hkv
    rcases List.mem_cons.mp hkv with hkv | hkv
    · rw [hkv]
      have hne : e.1 ≠ kv0.2 := of_decide_eq_true h3.2
      exact fun he => hne he.symm
    · exact h2 kv hkv

end Automation

namespace Automation

/-- The debounce steps under the discipline that every fired callback runs
to completion, including its finally block, before the next step: firing
the mapped timer of a path and finishing its callback become one atomic
step. -/
inductive ArchiveAtomicOp where
  | process (path : String)
  | fireMapped (path : String)
  | cleanup
deriving DecidableEq, Repr

/-- Interpretation of the atomic steps by the source-level steps. -/
def atomicStep (st : ArchiveSvc) : ArchiveAtomicOp → ArchiveSvc
  | .process p => archiveStep st (.process p)
  | .fireMapped p =>
    match lookupTimer st.timersMap p with
    | some t => archiveStep (archiveStep st (.fire t p)) (.finishCb t p)
    | none => st
  | .cleanup => archiveStep st .cleanup

/-- A run of atomic steps from the initial state. -/
def atomicRun (ops : List ArchiveAtomicOp) : ArchiveSvc :=
  ops.foldl atomicStep archiveInit

/-- The live timers the debounceTimers map accounts for at one path: its
mapped timer, if any. -/
def mapEntryList (m : List (String × Nat)) (p : String) : List (Nat × String) :=
  match lookupTimer m p with
  | some t => [(t, p)]
  | none => []

/-- Invariant of the disciplined debounce machine: no callback is
mid-flight, the live timers keyed to each path are exactly that path's map
entry, distinct paths never map to the same timer id, and every mapped id
is below the id counter. -/
structure TimerInv (st : ArchiveSvc) : Prop where
  noRunning : st.running = []
  liveMatch : ∀ p, (st.live.filter fun e => e.2 = p) = mapEntryList st.timersMap p
  valsInj : ∀ p q t, lookupTimer st.timersMap p = some t →
    lookupTimer st.timersMap q = some t → p = q
  valsFresh : ∀ p t, lookupTimer st.timersMap p = some t → t < st.nextId

theorem live_entry_mapped (st : ArchiveSvc)
    (hmatch : ∀ p, (st.live.filter fun e => e.2 = p) = mapEntryList st.timersMap p)
    (e : Nat × String) (he : e ∈ st.live) :
    lookupTimer st.timersMap e.2 = some e.1 := by
  obtain ⟨t1, p1⟩ := e
  have hin : (t1, p1) ∈ st.live.filter fun e => e.2 = p1 :=
    List.mem_filter.mpr ⟨he, by simp⟩
  rw [hmatch p1] at hin
  unfold mapEntryList at hin
  cases hl : lookupTimer st.timersMap p1 with
  | none =>
    rw [hl] at hin
    cases hin
  | some t =>
    rw [hl] at hin
    have heq : t1 = t := by simpa using hin
    simp [hl, heq]

theorem clear_mapped_filter (st : ArchiveSvc)
    (hmatch : ∀ p, (st.live.filter fun e => e.2 = p) = mapEntryList st.timersMap p)
    (hinj : ∀ p q t, lookupTimer st.timersMap p = some t →
      lookupTimer st.timersMap q = some t → p = q)
    (p : String) (t : Nat) (hl : lookupTimer st.timersMap p = some t) (q : String) :
    ((clearTimer st.live t).filter fun e => e.2 = q) =
      if q = p then [] else st.live.filter fun e => e.2 = q := by
  rw [filter_clearTimer, hmatch q]
  by_cases hq : q = p
  · subst hq
    rw [if_pos rfl]
    unfold mapEntryList
    rw [hl]
    simp [clearTimer]
  · rw [if_neg hq]
    unfold mapEntryList
    cases hlq : lookupTimer st.timersMap q with
    | none => simp [clearTimer]
    | some tq =>
      have hne : tq ≠ t := fun he => hq (hinj q p t (he ▸ hlq) hl)
      simp [clearTimer, hne]

end Automation

namespace Automation

theorem timerInv_process (st : ArchiveSvc) (inv : TimerInv st) (p : String) :
    TimerInv (archiveStep st (.process p)) := by
  obtain ⟨hrun, hmatch, hinj, hfresh⟩ := inv
  have hinj2 : ∀ a b t2, lookupTimer (insertTimer st.timersMap p st.nextId) a = some t2 →
      lookupTimer (insertTimer st.timersMap p st.nextId) b = some t2 → a = b := by
    intro a b t2 ha hb
    by_cases hap : a = p <;> by_cases hbp : b = p
    · rw [hap, hbp]
    · rw [hap] at ha
      rw [lookupTimer_insert_self] at ha
      rw [lookupTimer_insert_ne _ _ _ _ hbp] at hb
      injection ha with ha2
      rw [← ha2] at hb
      exact absurd (hfresh b st.nextId hb) (lt_irrefl _)
    · rw [hbp] at hb
      rw [lookupTimer_insert_self] at hb
      rw [lookupTimer_insert_ne _ _ _ _ hap] at ha
      injection hb with hb2
      rw [← hb2] at ha
      exact absurd (hfresh a st.nextId ha) (lt_irrefl _)
    · rw [lookupTimer_insert_ne _ _ _ _ hap] at ha
      rw [lookupTimer_insert_ne _ _ _ _ hbp] at hb
      exact hinj a b t2 ha hb
  have hfresh2 : ∀ a t2, lookupTimer (insertTimer st.timersMap p st.nextId) a = some t2 →
      t2 < st.nextId + 1 := by
    intro a t2 ha
    by_cases hap : a = p
    · rw [hap, lookupTimer_insert_self] at ha
      injection ha with ha2
      rw [← ha2]
      exact Nat.lt_succ_self _
    · rw [lookupTimer_insert_ne _ _ _ _ hap] at ha
      exact Nat.lt_succ_of_lt (hfresh a t2 ha)
  cases hl : lookupTimer st.timersMap p with
  | none =>
    refine ⟨?_, ?_, ?_, ?_⟩
    · simpa [archiveStep, hl] using hrun
    · intro q
      simp only [archiveStep, hl, List.filter_append]
      by_cases hq : q = p
      · subst hq
        rw [hmatch q]
        unfold mapEntryList
        rw [hl, lookupTimer_insert_self]
        simp
      · have hpq : ¬(p = q) := fun he => hq he.symm
        rw [hmatch q]
        unfold mapEntryList
        rw [lookupTimer_insert_ne _ _ _ _ hq]
        simp [hpq]
    · simpa only [archiveStep, hl] using hinj2
    · simpa only [archiveStep, hl] using hfresh2
  | some t =>
    refine ⟨?_, ?_, ?_, ?_⟩
    · simpa [archiveStep, hl] using hrun
    · intro q
      simp only [archiveStep, hl, List.filter_append]
      rw [clear_mapped_filter st hmatch hinj p t hl q]
      by_cases hq : q = p
      · subst hq
        rw [if_pos rfl]
        unfold mapEntryList
        rw [lookupTimer_insert_self]
        simp
      · have hpq : ¬(p = q) := fun he => hq he.symm
        rw [if_neg hq, hmatch q]
        unfold mapEntryList
        rw [lookupTimer_insert_ne _ _ _ _ hq]
        simp [hpq]
    · simpa only [archiveStep, hl] using hinj2
    · simpa only [archiveStep, hl] using hfresh2

end Automation

namespace Automation

theorem timerInv_fireMapped (st : ArchiveSvc) (inv : TimerInv st) (p : String) :
    TimerInv (atomicStep st (.fireMapped p)) := by
  obtain ⟨hrun, hmatch, hinj, hfresh⟩ := inv
  cases hl : lookupTimer st.timersMap p with
  | none =>
    simp only [atomicStep, hl]
    exact ⟨hrun, hmatch, hinj, hfresh⟩
  | some t =>
    have hmem : (t, p) ∈ st.live := by
      have hins : (t, p) ∈ st.live.filter fun e => e.2 = p := by
        rw [hmatch p]
        unfold mapEntryList
        rw [hl]
        simp
      exact List.mem_of_mem_filter hins
    have hfire : archiveStep st (.fire t p) =
        { st with live := clearTimer st.live t,
                  running := st.running ++ [(t, p)] } := by
      simp [archiveStep, hmem]
    have hmem2 : (t, p) ∈ st.running ++ [(t, p)] := by simp
    have hfin : atomicStep st (.fireMapped p) =
        { st with live := clearTimer st.live t,
                  timersMap := deleteTimer st.timersMap p,
                  running := removeRunning (st.running ++ [(t, p)]) t } := by
      simp only [atomicStep, hl, hfire]
      simp [archiveStep, hmem2]
    rw [hfin]
    refine ⟨?_, ?_, ?_, ?_⟩
    · simp [hrun, removeRunning]
    · intro q
      simp only []
      rw [clear_mapped_filter st hmatch hinj p t hl q]
      by_cases hq : q = p
      · subst hq
        rw [if_pos rfl]
        unfold mapEntryList
        rw [lookupTimer_delete_self]
      · rw [if_neg hq, hmatch q]
        unfold mapEntryList
        rw [lookupTimer_delete_ne _ _ _ hq]
    · intro a b t2 ha hb
      simp only [] at ha hb
      by_cases hap : a = p
      · rw [hap, lookupTimer_delete_self] at ha
        cases ha
      · by_cases hbp : b = p
        · rw [hbp, lookupTimer_delete_self] at hb
          cases hb
        · rw [lookupTimer_delete_ne _ _ _ hap] at ha
          rw [lookupTimer_delete_ne _ _ _ hbp] at hb
          exact hinj a b t2 ha hb
    · intro a t2 ha
      simp only [] at ha
      by_cases hap : a = p
      · rw [hap, lookupTimer_delete_self] at ha
        cases ha
      · rw [lookupTimer_delete_ne _ _ _ hap] at ha
        exact hfresh a t2 ha

theorem cleanup_clears (st : ArchiveSvc) (inv : TimerInv st) :
    (archiveStep st .cleanup).live = [] ∧
    (archiveStep st .cleanup).timersMap = [] ∧
    TimerInv (archiveStep st .cleanup) := by
  obtain ⟨hrun, hmatch, hinj, hfresh⟩ := inv
  have hlive : st.timersMap.foldl (fun acc kv => clearTimer acc kv.2) st.live = [] := by
    rw [List.eq_nil_iff_forall_not_mem]
    intro e he
    obtain ⟨h1, h2⟩ := mem_foldl_clearTimer _ _ _ he
    have h3 := live_entry_mapped st hmatch e h1
    exact h2 (e.2, e.1) (lookupTimer_mem _ _ _ h3) rfl
  refine ⟨by simp [archiveStep, hlive], by simp [archiveStep], ?_⟩
  refine ⟨by simpa [archiveStep] using hrun, ?_, ?_, ?_⟩
  · intro q
    simp [archiveStep, hlive, mapEntryList, lookupTimer]
  · intro a b t2 ha hb
    simp only [archiveStep] at ha
    exact absurd ha (by simp [lookupTimer])
  · intro a t2 ha
    simp only [archiveStep] at ha
    exact absurd ha (by simp [lookupTimer])

theorem timerInv_atomicStep (st : ArchiveSvc) (inv : TimerInv st)
    (op : ArchiveAtomicOp) : TimerInv (atomicStep st op) := by
  cases op with
  | process p => exact timerInv_process st inv p
  | fireMapped p => exact timerInv_fireMapped st inv p
  | cleanup => exact (cleanup_clears st inv).2.2

theorem timerInv_init : TimerInv archiveInit := by
  refine ⟨rfl, fun p => rfl, ?_, ?_⟩
  · intro a b t2 ha hb
    exact absurd ha (by simp [archiveInit, lookupTimer])
  · intro a t2 ha
    exact absurd ha (by simp [archiveInit, lookupTimer])

theorem timerInv_run (ops : List ArchiveAtomicOp) (st : ArchiveSvc)
    (inv : TimerInv st) : TimerInv (ops.foldl atomicStep st) := by
  induction ops generalizing st with
  | nil => exact inv
  | cons op ops ih => exact ih _ (timerInv_atomicStep st inv op)

/-- C10 amended: as long as every fired debounce callback runs to
completion, finally block included, before the next processAutoArchive,
timer firing or cleanup for any path, the service keeps at most one live
timer per file path at all times: processAutoArchive clears the mapped
timer before scheduling a new one, an atomically fired timer removes its
own map entry, and cleanup cancels every mapped timer and leaves no live
timer and an empty map. -/
theorem autoArchive_one_timer_per_path (ops : List ArchiveAtomicOp) :
    atMostOneLivePerPath (atomicRun ops) ∧
    (atomicRun (ops ++ [.cleanup])).live = [] ∧
    (atomicRun (ops ++ [.cleanup])).timersMap = [] := by
  have hinv : TimerInv (atomicRun ops) :=
    timerInv_run ops archiveInit timerInv_init
  have hsplit : atomicRun (ops ++ [.cleanup]) =
      atomicStep (atomicRun ops) .cleanup := by
    simp [atomicRun, List.foldl_append]
  refine ⟨?_, ?_, ?_⟩
  · intro p
    rw [hinv.liveMatch p]
    unfold mapEntryList
    cases lookupTimer (atomicRun ops).timersMap p <;> simp
  · rw [hsplit]
    exact (cleanup_clears _ hinv).1
  · rw [hsplit]
    exact (cleanup_clears _ hinv).2.1

end Automation
